import Mathlib

/-!
Verification of the transaction aggregation and filtering engine of the
`financa` personal-finance app.

The definitions below are a shallow embedding of the JavaScript source:

* `filterTransactions`  — `src/screens/TransactionsScreen.js`, `filterTransactions`
* `computeBalance`      — `src/screens/DashboardScreen.js`, `loadDashboardData` step 2
* `processMonthlyData`  — `src/screens/DashboardScreen.js`, `processMonthlyData`
* `calculateHighlights` — `src/screens/DashboardScreen.js`, `calculateHighlights`
* `createDefaultCategories` / `signUpRun` — `src/contexts/AuthContext.js`

Modelling conventions:
* JS numbers holding monetary amounts are modelled as `Int` (the spec fixes
  them to exact decimals with two decimal places, so an exact integer count
  of cents represents them faithfully; only `+`, `-` and comparisons occur).
* A JS `Date` is modelled as a calendar date-time `DateTime` with a
  time-of-day component; JS compares `Date` values by their epoch timestamp,
  which on calendar-valid values coincides with the lexicographic order on
  (year, month, day, time-of-day) implemented by `DateTime.le`.
* The JS string-keyed objects used as accumulators (`months`,
  `categoryCount`) preserve key insertion order (the keys are never
  integer-like), so they are modelled as insertion-ordered association
  lists.
-/

/-- Calendar date-time. `month` is the 1-based calendar month (the JS code
computes `getMonth() + 1`), `msOfDay` the time-of-day component. -/
structure DateTime where
  year : Nat
  month : Nat
  day : Nat
  msOfDay : Nat
deriving DecidableEq, Repr

/-- Order on `DateTime` values: the JS engine compares `Date` objects by
epoch timestamp, which is the lexicographic order on calendar fields. -/
def DateTime.le (a b : DateTime) : Bool :=
  if a.year ≠ b.year then decide (a.year < b.year)
  else if a.month ≠ b.month then decide (a.month < b.month)
  else if a.day ≠ b.day then decide (a.day < b.day)
  else decide (a.msOfDay ≤ b.msOfDay)

/-- Same calendar day (time-of-day discarded). -/
def sameCalendarDay (a b : DateTime) : Bool :=
  a.year == b.year && a.month == b.month && a.day == b.day

/-- One row of the `transactions` table as the screens consume it. -/
structure Transaction where
  id : String
  type : String
  amount : Int
  description : String
  category : String
  date : DateTime
deriving DecidableEq, Repr

/-- Here `startsWithChars p s` models JS string prefix testing on character
lists: `p` begins `s`. -/
def startsWithChars : List Char → List Char → Bool
  | [], _ => true
  | _ :: _, [] => false
  | p :: ps, s :: ss => p == s && startsWithChars ps ss

/-- Here `containsChars p s` models JS `String.prototype.includes`: `p` occurs
contiguously inside `s` (always true for the empty pattern). -/
def containsChars : List Char → List Char → Bool
  | p, [] => startsWithChars p []
  | p, s :: ss => startsWithChars p (s :: ss) || containsChars p ss

/-- JS `haystack.includes(needle)`. -/
def strIncludes (haystack needle : String) : Bool :=
  containsChars needle.data haystack.data

/-- The filter state of `TransactionsScreen`: `filterType` is
`"all" | "income" | "expense"`, text fields default to `""`, and the date
bounds are always present (the screen initialises them to the first day of
the current month and today). -/
structure FilterSpec where
  filterType : String
  filterCategory : String
  startDate : DateTime
  endDate : DateTime
  searchText : String
deriving DecidableEq, Repr

/-- Function `filterTransactions` from `TransactionsScreen.js` (lines 68-104): the
four filter stages applied in source order.  Stage 1 runs only when
`filterType !== 'all'`, stages 2 and 4 only when their text is non-empty
(JS truthiness of a string), stage 3 always runs and compares the full
`Date` values directly — the source comment notes it does not strip the
time-of-day. -/
def filterTransactions (transactions : List Transaction) (spec : FilterSpec) :
    List Transaction :=
  let filtered := transactions
  let filtered :=
    if spec.filterType ≠ "all" then
      filtered.filter (fun t => t.type == spec.filterType)
    else filtered
  let filtered :=
    if spec.filterCategory ≠ "" then
      filtered.filter (fun t =>
        strIncludes t.category.toLower spec.filterCategory.toLower)
    else filtered
  let filtered :=
    filtered.filter (fun t =>
      DateTime.le spec.startDate t.date && DateTime.le t.date spec.endDate)
  let filtered :=
    if spec.searchText ≠ "" then
      filtered.filter (fun t =>
        strIncludes t.description.toLower spec.searchText.toLower ||
        strIncludes t.category.toLower spec.searchText.toLower)
    else filtered
  filtered

/-- Balance computation of `DashboardScreen.loadDashboardData` (lines
47-56): total income minus total expenses, each a `reduce` with initial
accumulator `0` over the type-filtered list. -/
def computeBalance (transactions : List Transaction) : Int :=
  ((transactions.filter (fun t => t.type == "income")).foldl
      (fun sum t => sum + t.amount) 0) -
  ((transactions.filter (fun t => t.type == "expense")).foldl
      (fun sum t => sum + t.amount) 0)

example :
    filterTransactions
      [{ id := "1", type := "expense", amount := 50, description := "x",
         category := "Food", date := ⟨2024, 1, 10, 0⟩ }]
      { filterType := "all", filterCategory := "", startDate := ⟨2024, 1, 1, 0⟩,
        endDate := ⟨2024, 1, 31, 0⟩, searchText := "" } =
      [{ id := "1", type := "expense", amount := 50, description := "x",
         category := "Food", date := ⟨2024, 1, 10, 0⟩ }] := by decide

example :
    computeBalance
      [{ id := "1", type := "expense", amount := 50, description := "x",
         category := "Food", date := ⟨2024, 1, 10, 0⟩ },
       { id := "2", type := "expense", amount := 120, description := "y",
         category := "Rent", date := ⟨2024, 1, 15, 0⟩ },
       { id := "3", type := "income", amount := 1000, description := "z",
         category := "Salary", date := ⟨2024, 1, 5, 0⟩ }] = 830 := by decide

/-- Per-month accumulator value: the `{ income: 0, expenses: 0 }` records
stored in the `months` object of `processMonthlyData`. -/
structure MonthData where
  income : Int
  expenses : Int
deriving DecidableEq, Repr

/-- An element of the array `processMonthlyData` returns:
`{ month, income, expenses }`. -/
structure MonthBucket where
  month : String
  income : Int
  expenses : Int
deriving DecidableEq, Repr

/-- The grouping key `` `${date.getFullYear()}-${date.getMonth() + 1}` ``.
`DateTime.month` is already the 1-based calendar month, so the `+ 1` of the
0-based JS `getMonth()` is built in. -/
def monthKey (t : Transaction) : String :=
  toString t.date.year ++ "-" ++ toString t.date.month

/-- One step of the loop body of `processMonthlyData` on the insertion-
ordered map `months`: initialise the key's record to zeroes if absent, then
add the amount to `income` when the type is `'income'` and to `expenses`
in every other case. -/
def addToMonths (months : List (String × MonthData)) (key : String)
    (isIncome : Bool) (amount : Int) : List (String × MonthData) :=
  match months with
  | [] =>
      [(key, if isIncome then ⟨amount, 0⟩ else ⟨0, amount⟩)]
  | (k, d) :: rest =>
      if k = key then
        (k, if isIncome then ⟨d.income + amount, d.expenses⟩
            else ⟨d.income, d.expenses + amount⟩) :: rest
      else
        (k, d) :: addToMonths rest key isIncome amount

/-- Function `processMonthlyData` from `DashboardScreen.js` (lines 77-105): group
the transactions by month key, then map the accumulated object to the
output array in key (insertion) order. -/
def processMonthlyData (transactions : List Transaction) : List MonthBucket :=
  let months := transactions.foldl
    (fun m t => addToMonths m (monthKey t) (t.type == "income") t.amount) []
  months.map (fun p => { month := p.1, income := p.2.income,
                         expenses := p.2.expenses })

/-- The record `calculateHighlights` returns. `highestExpense` is `null`
(here `none`) when there are no expenses. -/
structure Highlights where
  highestExpense : Option Transaction
  mostUsedCategory : String
deriving DecidableEq, Repr

/-- The `reduce` step of the largest-expense computation:
`(max, t) => t.amount > max.amount ? t : max`. -/
def maxStep (mx t : Transaction) : Transaction :=
  if t.amount > mx.amount then t else mx

/-- One step of the category-counting loop:
`categoryCount[t.category] = (categoryCount[t.category] || 0) + 1` on the
insertion-ordered map. -/
def bumpCount (counts : List (String × Nat)) (c : String) :
    List (String × Nat) :=
  match counts with
  | [] => [(c, 1)]
  | (k, n) :: rest =>
      if k = c then (k, n + 1) :: rest else (k, n) :: bumpCount rest c

/-- Lookup `categoryCount[k] || 0`: the count stored for `k`, `0` when absent. -/
def lookupCount (counts : List (String × Nat)) (k : String) : Nat :=
  match counts with
  | [] => 0
  | (k', n) :: rest => if k' = k then n else lookupCount rest k

/-- Function `calculateHighlights` from `DashboardScreen.js` (lines 110-134).
The largest expense is a `reduce` over the expense sublist with the first
expense as the initial accumulator (JS `reduce` with an explicit initial
value also visits index 0).  The most-used category reduces the key list of
`categoryCount` without an initial value, so it starts from the first key;
`'Nenhuma'` is returned when there are no keys. -/
def highestExpenseOf (transactions : List Transaction) : Option Transaction :=
  let expenses := transactions.filter (fun t => t.type == "expense")
  match expenses with
  | [] => none
  | e :: rest => some ((e :: rest).foldl maxStep e)

/-- The most-used-category computation of `calculateHighlights`: count
occurrences per category, then reduce the key list without an initial
value (so the first key seeds the accumulator); `'Nenhuma'` when there are
no keys. -/
def mostUsedCategoryOf (transactions : List Transaction) : String :=
  let categoryCount :=
    transactions.foldl (fun m t => bumpCount m t.category) []
  match categoryCount.map Prod.fst with
  | [] => "Nenhuma"
  | k :: ks =>
      ks.foldl (fun a b =>
        if lookupCount categoryCount a > lookupCount categoryCount b
        then a else b) k

def calculateHighlights (transactions : List Transaction) : Highlights :=
  { highestExpense := highestExpenseOf transactions,
    mostUsedCategory := mostUsedCategoryOf transactions }

/-- A row of the `categories` table as `AuthContext.createDefaultCategories`
inserts it. -/
structure CategoryRow where
  user_id : String
  name : String
  type : String
deriving DecidableEq, Repr

/-- The hard-coded `defaultCategories` array of
`AuthContext.createDefaultCategories` (lines 31-47). -/
def defaultCategories : List (String × String) :=
  [("Alimentação", "expense"), ("Transporte", "expense"),
   ("Moradia", "expense"), ("Saúde", "expense"), ("Educação", "expense"),
   ("Lazer", "expense"), ("Compras", "expense"), ("Outros", "expense"),
   ("Salário", "income"), ("Freelance", "income"),
   ("Investimentos", "income"), ("Presentes", "income"),
   ("Outros", "income")]

/-- The rows `createDefaultCategories(userId)` hands to the batched insert:
each default category tagged with the owner's `user_id` (lines 50-58). -/
def createDefaultCategories (userId : String) : List CategoryRow :=
  defaultCategories.map (fun c => { user_id := userId, name := c.1, type := c.2 })

/-- The store's batched insert appends the rows to the `categories`
collection; `createDefaultCategories` performs no duplicate check before
inserting. -/
def seedInto (store : List CategoryRow) (userId : String) : List CategoryRow :=
  store ++ createDefaultCategories userId

/-- Observable outcome of one `createDefaultCategories` call:
`loggedError` is the store error passed to `console.error` (lines 61-68),
`returned` is the error value surfaced to the caller — the JS function
returns `undefined` on every path and catches every exception, so the
embedding shows what each path yields. -/
structure SeedOutcome where
  loggedError : Option String
  returned : Option String
deriving DecidableEq, Repr

/-- Function `createDefaultCategories` as observed by its caller, parameterised by
the result of the batched insert (`none` = success, `some e` = store
error): a store error is logged and swallowed (lines 61-65), success logs
nothing and returns nothing. -/
def createDefaultCategoriesOutcome (insertError : Option String) : SeedOutcome :=
  match insertError with
  | some e => { loggedError := some e, returned := none }
  | none => { loggedError := none, returned := none }

/-- Result of the `supabase.auth.signUp` call: `userId` is `data.user?.id`,
`error` the auth error. -/
structure AuthResult where
  userId : Option String
  error : Option String
deriving DecidableEq, Repr

/-- A run of `AuthContext.signUp` (lines 121-147): `returned` is the
`{ data, error }` value handed back to the caller, `seeding` the outcome of
the `createDefaultCategories` call when it was invoked (`data.user` present
and no auth error). The returned value is the auth result unchanged on
every path — seeding cannot alter it. -/
structure SignUpRun where
  returned : AuthResult
  seeding : Option SeedOutcome
deriving DecidableEq, Repr

/-- Function `signUp` as observed by its caller, parameterised by the auth result
and (when seeding runs) the insert result. -/
def signUpRun (auth : AuthResult) (insertError : Option String) : SignUpRun :=
  if auth.userId.isSome && auth.error.isNone then
    { returned := auth, seeding := some (createDefaultCategoriesOutcome insertError) }
  else
    { returned := auth, seeding := none }

example :
    (calculateHighlights
      [{ id := "1", type := "expense", amount := 50, description := "x",
         category := "Food", date := ⟨2024, 1, 10, 0⟩ },
       { id := "2", type := "expense", amount := 120, description := "y",
         category := "Rent", date := ⟨2024, 1, 15, 0⟩ },
       { id := "3", type := "income", amount := 1000, description := "z",
         category := "Salary", date := ⟨2024, 1, 5, 0⟩ }]).highestExpense =
      some { id := "2", type := "expense", amount := 120, description := "y",
             category := "Rent", date := ⟨2024, 1, 15, 0⟩ } := by decide

example :
    processMonthlyData
      [{ id := "1", type := "expense", amount := 50, description := "x",
         category := "Food", date := ⟨2024, 1, 10, 0⟩ },
       { id := "2", type := "expense", amount := 120, description := "y",
         category := "Rent", date := ⟨2024, 1, 15, 0⟩ },
       { id := "3", type := "income", amount := 1000, description := "z",
         category := "Salary", date := ⟨2024, 1, 5, 0⟩ }] =
      [{ month := "2024-1", income := 1000, expenses := 170 }] := by decide

example : (seedInto (seedInto [] "user1") "user1").length = 26 := by decide

/-! ### Helper lemmas -/

/-- A `reduce((sum, t) => sum + t.amount, i)` is the initial accumulator
plus the sum of the amounts. -/
theorem foldl_add_amount (l : List Transaction) (i : Int) :
    l.foldl (fun sum t => sum + t.amount) i = i + (l.map (fun t => t.amount)).sum := by
  induction l generalizing i with
  | nil => simp
  | cons t l ih => simp [ih, add_assoc]

/-- The predicate of filter stage 1 (kind), `true` when the stage is
bypassed because `filterType === 'all'`. -/
def passesKind (spec : FilterSpec) (t : Transaction) : Bool :=
  if spec.filterType ≠ "all" then t.type == spec.filterType else true

/-- The predicate of filter stage 2 (category substring), `true` when
`filterCategory` is empty. -/
def passesCategory (spec : FilterSpec) (t : Transaction) : Bool :=
  if spec.filterCategory ≠ "" then
    strIncludes t.category.toLower spec.filterCategory.toLower
  else true

/-- The predicate of filter stage 3 (date range), always active. -/
def passesDate (spec : FilterSpec) (t : Transaction) : Bool :=
  DateTime.le spec.startDate t.date && DateTime.le t.date spec.endDate

/-- The predicate of filter stage 4 (free-text search), `true` when
`searchText` is empty. -/
def passesSearch (spec : FilterSpec) (t : Transaction) : Bool :=
  if spec.searchText ≠ "" then
    strIncludes t.description.toLower spec.searchText.toLower ||
    strIncludes t.category.toLower spec.searchText.toLower
  else true

/-- The conjunction of the four stage predicates. -/
def passesAll (spec : FilterSpec) (t : Transaction) : Bool :=
  passesKind spec t && passesCategory spec t && passesDate spec t &&
    passesSearch spec t

/-- The staged pipeline of `filterTransactions` equals one filter by the
conjunction of the four predicates. -/
theorem filterTransactions_eq_filter (T : List Transaction) (spec : FilterSpec) :
    filterTransactions T spec = T.filter (passesAll spec) := by
  have hstage :
      filterTransactions T spec =
        (((T.filter (passesKind spec)).filter (passesCategory spec)).filter
            (passesDate spec)).filter (passesSearch spec) := by
    unfold filterTransactions passesKind passesCategory passesDate passesSearch
    by_cases h1 : spec.filterType ≠ "all" <;>
      by_cases h2 : spec.filterCategory ≠ "" <;>
        by_cases h3 : spec.searchText ≠ "" <;>
          simp [h1, h2, h3]
  rw [hstage, List.filter_filter, List.filter_filter, List.filter_filter]
  refine List.filter_congr fun x _ => ?_
  unfold passesAll
  cases passesKind spec x <;> cases passesCategory spec x <;>
    cases passesDate spec x <;> cases passesSearch spec x <;> rfl

/-! ### Sample data (the scenario of spec §8) -/

def sampleExpense1 : Transaction :=
  { id := "1", type := "expense", amount := 50, description := "Mercado",
    category := "Food", date := ⟨2024, 1, 10, 0⟩ }

def sampleExpense2 : Transaction :=
  { id := "2", type := "expense", amount := 120, description := "Aluguel",
    category := "Rent", date := ⟨2024, 1, 15, 0⟩ }

def sampleIncome : Transaction :=
  { id := "3", type := "income", amount := 1000, description := "Pagamento",
    category := "Salary", date := ⟨2024, 1, 5, 0⟩ }

def sampleT : List Transaction := [sampleExpense1, sampleExpense2, sampleIncome]

/-- A spec with no constraints and a date range covering all of `sampleT`. -/
def wideSpec : FilterSpec :=
  { filterType := "all", filterCategory := "", startDate := ⟨2024, 1, 1, 0⟩,
    endDate := ⟨2024, 12, 31, 0⟩, searchText := "" }

/-! ### C1 -/

/-- C1: for every finite transaction sequence `T`, `computeBalance T` is
the sum of the Income amounts minus the sum of the Expense amounts, and
`computeBalance []` is `0`. -/
theorem computeBalance_income_sub_expense (T : List Transaction) :
    computeBalance T =
      ((T.filter (fun t => t.type == "income")).map (fun t => t.amount)).sum -
        ((T.filter (fun t => t.type == "expense")).map (fun t => t.amount)).sum ∧
    computeBalance ([] : List Transaction) = 0 := by
  constructor
  · unfold computeBalance
    rw [foldl_add_amount, foldl_add_amount]
    simp
  · rfl

/-! ### C6 and C7 -/

/-- C6: `filterTransactions T spec` is always a subsequence of `T`
(subset preserving input order), and a spec with kind `'all'`, empty
category text, empty search text and a date range covering every
transaction's date returns `T` unchanged. -/
theorem filterTransactions_sublist_and_identity (T : List Transaction)
    (spec : FilterSpec) :
    (filterTransactions T spec).Sublist T ∧
      (spec.filterType = "all" → spec.filterCategory = "" →
        spec.searchText = "" →
        (∀ t ∈ T, DateTime.le spec.startDate t.date = true ∧
          DateTime.le t.date spec.endDate = true) →
        filterTransactions T spec = T) := by
  rw [filterTransactions_eq_filter]
  refine ⟨List.filter_sublist T, fun h1 h2 h3 hdate => ?_⟩
  refine List.filter_eq_self.mpr fun t ht => ?_
  unfold passesAll passesKind passesCategory passesDate passesSearch
  simp [h1, h2, h3, (hdate t ht).1, (hdate t ht).2]

/-- Witness for C6: on the §8 scenario data with an unconstrained spec and
a covering date range the filter is the identity. -/
theorem filterTransactions_identity_witness :
    wideSpec.filterType = "all" ∧ filterTransactions sampleT wideSpec = sampleT :=
  ⟨rfl, (filterTransactions_sublist_and_identity sampleT wideSpec).2 rfl rfl rfl
    (by decide)⟩

/-- C7: `filterTransactions` is idempotent — filtering an already filtered
list with the same spec changes nothing. -/
theorem filterTransactions_idempotent (T : List Transaction) (spec : FilterSpec) :
    filterTransactions (filterTransactions T spec) spec =
      filterTransactions T spec := by
  rw [filterTransactions_eq_filter, filterTransactions_eq_filter,
    List.filter_filter]
  refine List.filter_congr fun x _ => ?_
  cases passesAll spec x <;> rfl

/-! ### C8 -/

/-- C8: `createDefaultCategories` inserts exactly the hard-coded list of 13
categories (8 expense, 5 income) for the owner; the insert is a plain
append with no duplicate check, so seeding an empty store twice for the
same user leaves 26 categories. -/
theorem seedDefaultCategories_fixed_and_not_idempotent (u : String)
    (store : List CategoryRow) :
    createDefaultCategories u =
      [{ user_id := u, name := "Alimentação", type := "expense" },
       { user_id := u, name := "Transporte", type := "expense" },
       { user_id := u, name := "Moradia", type := "expense" },
       { user_id := u, name := "Saúde", type := "expense" },
       { user_id := u, name := "Educação", type := "expense" },
       { user_id := u, name := "Lazer", type := "expense" },
       { user_id := u, name := "Compras", type := "expense" },
       { user_id := u, name := "Outros", type := "expense" },
       { user_id := u, name := "Salário", type := "income" },
       { user_id := u, name := "Freelance", type := "income" },
       { user_id := u, name := "Investimentos", type := "income" },
       { user_id := u, name := "Presentes", type := "income" },
       { user_id := u, name := "Outros", type := "income" }] ∧
    seedInto store u = store ++ createDefaultCategories u ∧
    (seedInto (seedInto [] u) u).length = 26 :=
  ⟨rfl, rfl, rfl⟩

/-! ### C9 -/

/-- C9 counterexample: when the batched insert fails, the error is logged
but `createDefaultCategories` returns nothing to its caller — the claim
that the store error is reported to the caller is false. -/
theorem seedError_not_reported_to_caller :
    ¬ ((createDefaultCategoriesOutcome (some "insert failed")).returned =
        some "insert failed") ∧
      (createDefaultCategoriesOutcome (some "insert failed")).loggedError =
        some "insert failed" := by
  exact ⟨by decide, rfl⟩

/-- C9 amended: a store error during seeding is logged and swallowed (the
caller receives no error value), and the failure is non-fatal to account
creation — `signUp` returns the auth result unchanged whatever the insert
result was. -/
theorem seedError_logged_swallowed_signUp_unaffected :
    (∀ e : String,
      (createDefaultCategoriesOutcome (some e)).loggedError = some e ∧
        (createDefaultCategoriesOutcome (some e)).returned = none) ∧
    (∀ (auth : AuthResult) (insertError : Option String),
      (signUpRun auth insertError).returned = auth) := by
  refine ⟨fun e => ⟨rfl, rfl⟩, fun auth insertError => ?_⟩
  unfold signUpRun
  split <;> rfl

/-! ### C4 -/

/-- The `reduce` of the largest-expense computation never loses ground:
the accumulator's amount only grows. -/
theorem amount_le_foldl_maxStep (l : List Transaction) (e : Transaction) :
    e.amount ≤ (l.foldl maxStep e).amount := by
  induction l generalizing e with
  | nil => exact le_refl _
  | cons t l ih =>
      refine le_trans ?_ (ih (maxStep e t))
      unfold maxStep
      split <;> omega

/-- The strict comparison `t.amount > max.amount` makes the `reduce`
return the first maximum: everything before the result is strictly
smaller, everything after is at most as large. -/
theorem foldl_maxStep_first_max (l : List Transaction) (e : Transaction) :
    ∃ l1 l2, e :: l = l1 ++ (l.foldl maxStep e) :: l2 ∧
      (∀ t ∈ l1, t.amount < (l.foldl maxStep e).amount) ∧
      (∀ t ∈ l2, t.amount ≤ (l.foldl maxStep e).amount) := by
  induction l generalizing e with
  | nil => exact ⟨[], [], rfl, by simp, by simp⟩
  | cons t l ih =>
      rw [List.foldl_cons]
      by_cases h : t.amount > e.amount
      · have hstep : maxStep e t = t := by unfold maxStep; rw [if_pos h]
        rw [hstep]
        obtain ⟨l1, l2, hdec, hlt, hle⟩ := ih t
        refine ⟨e :: l1, l2, by rw [List.cons_append, ← hdec], ?_, hle⟩
        intro x hx
        rcases List.mem_cons.mp hx with hx | hx
        · subst hx
          exact lt_of_lt_of_le h (amount_le_foldl_maxStep l t)
        · exact hlt x hx
      · have hstep : maxStep e t = e := by unfold maxStep; rw [if_neg h]
        rw [hstep]
        obtain ⟨l1, l2, hdec, hlt, hle⟩ := ih e
        set r := l.foldl maxStep e with hrdef
        cases l1 with
        | nil =>
            simp only [List.nil_append] at hdec
            have he : e = r := (List.cons.injEq _ _ _ _ ▸ hdec).1
            have hl : l = l2 := (List.cons.injEq _ _ _ _ ▸ hdec).2
            refine ⟨[], t :: l, ?_, by simp, ?_⟩
            · simp [← he]
            · intro x hx
              rcases List.mem_cons.mp hx with hx | hx
              · subst hx
                rw [← he]
                omega
              · exact hle x (hl ▸ hx)
        | cons y l1 =>
            have hy : y = e ∧ l = l1 ++ r :: l2 := by
              rw [List.cons_append] at hdec
              exact ⟨(List.cons.injEq _ _ _ _ ▸ hdec).1.symm,
                (List.cons.injEq _ _ _ _ ▸ hdec).2⟩
            have he_lt : e.amount < r.amount := by
              have := hlt y (List.mem_cons_self y l1)
              rw [hy.1] at this
              exact this
            refine ⟨e :: t :: l1, l2, ?_, ?_, hle⟩
            · rw [hy.2]
              simp
            · intro x hx
              rcases List.mem_cons.mp hx with hx | hx
              · subst hx; exact he_lt
              rcases List.mem_cons.mp hx with hx | hx
              · subst hx; omega
              · exact hlt x (List.mem_cons_of_mem y hx)

/-- C4: `highestExpense` is `none` exactly when there are no Expense
transactions; otherwise the returned transaction is an Expense of `T`
whose amount bounds every Expense amount, and it is the first maximum in
input order (all earlier expenses are strictly smaller). -/
theorem largestExpense_spec (T : List Transaction) :
    ((calculateHighlights T).highestExpense = none ↔
      T.filter (fun t => t.type == "expense") = []) ∧
    (∀ e, (calculateHighlights T).highestExpense = some e →
      e ∈ T ∧ e.type = "expense" ∧
        (∀ t ∈ T, t.type = "expense" → t.amount ≤ e.amount) ∧
        ∃ l1 l2, T.filter (fun t => t.type == "expense") = l1 ++ e :: l2 ∧
          (∀ t ∈ l1, t.amount < e.amount) ∧
          (∀ t ∈ l2, t.amount ≤ e.amount)) := by
  have hred : (calculateHighlights T).highestExpense =
      match T.filter (fun t => t.type == "expense") with
      | [] => none
      | e :: rest => some ((e :: rest).foldl maxStep e) := rfl
  rcases hexp : T.filter (fun t => t.type == "expense") with _ | ⟨a, rest⟩
  · rw [hred, hexp]
    exact ⟨by simp, by simp⟩
  · have hstep : maxStep a a = a := by
      unfold maxStep
      rw [if_neg (lt_irrefl a.amount)]
    have hred2 : (calculateHighlights T).highestExpense =
        some (rest.foldl maxStep a) := by
      rw [hred, hexp]
      show some ((a :: rest).foldl maxStep a) = some (rest.foldl maxStep a)
      rw [List.foldl_cons, hstep]
    obtain ⟨l1, l2, hdec, hlt, hle⟩ := foldl_maxStep_first_max rest a
    set r := rest.foldl maxStep a with hrdef
    have hrmem : r ∈ T.filter (fun t => t.type == "expense") := by
      rw [hexp, hdec]
      exact List.mem_append_right _ (List.mem_cons_self r l2)
    have hrT : r ∈ T ∧ (r.type == "expense") = true := List.mem_filter.mp hrmem
    constructor
    · rw [hred2, hexp]
      simp
    · intro e he
      rw [hred2] at he
      have hre : r = e := Option.some_inj.mp he
      subst hre
      refine ⟨hrT.1, by simpa using hrT.2, ?_, l1, l2, by rw [hexp, hdec], hlt, hle⟩
      intro t ht htype
      have htmem : t ∈ T.filter (fun t => t.type == "expense") :=
        List.mem_filter.mpr ⟨ht, by simp [htype]⟩
      rw [hexp, hdec] at htmem
      rcases List.mem_append.mp htmem with hx | hx
      · exact le_of_lt (hlt t hx)
      rcases List.mem_cons.mp hx with hx | hx
      · rw [hx]
      · exact hle t hx

/-- Witness for C4 on the §8 scenario data: the largest expense is the
120-unit rent transaction, the second expense in input order. -/
theorem largestExpense_witness :
    sampleExpense2 ∈ sampleT ∧ sampleExpense2.type = "expense" ∧
      (∀ t ∈ sampleT, t.type = "expense" →
        t.amount ≤ sampleExpense2.amount) ∧
      ∃ l1 l2,
        sampleT.filter (fun t => t.type == "expense") =
          l1 ++ sampleExpense2 :: l2 ∧
        (∀ t ∈ l1, t.amount < sampleExpense2.amount) ∧
        (∀ t ∈ l2, t.amount ≤ sampleExpense2.amount) :=
  (largestExpense_spec sampleT).2 sampleExpense2 (by decide)

/-! ### C5 -/

/-- Incrementing a category's counter adds one to that key and leaves the
others unchanged. -/
theorem lookupCount_bumpCount (m : List (String × Nat)) (c k : String) :
    lookupCount (bumpCount m c) k =
      if k = c then lookupCount m k + 1 else lookupCount m k := by
  induction m with
  | nil =>
      by_cases h : k = c
      · subst h; simp [bumpCount, lookupCount]
      · have h' : ¬c = k := fun hc => h hc.symm
        simp [bumpCount, lookupCount, h, h']
  | cons hd tl ih =>
      obtain ⟨k', n⟩ := hd
      by_cases hc : k' = c
      · by_cases hk : k' = k
        · have h1 : k = c := hk ▸ hc
          simp [bumpCount, lookupCount, hc, hk, h1]
        · have h1 : ¬k = c := fun h => hk (hc.trans h.symm)
          have h2 : ¬c = k := fun h => hk (hc.trans h)
          simp [bumpCount, lookupCount, hc, hk, h1, h2]
      · by_cases hk : k' = k
        · have h1 : ¬k = c := fun h => hc (hk.trans h)
          simp [bumpCount, lookupCount, hc, hk, h1]
        · simp [bumpCount, lookupCount, hc, hk, ih]

/-- The accumulated `categoryCount` holds, for every key, the number of
transactions with that category (plus whatever the initial map held). -/
theorem lookupCount_counts (T : List Transaction) :
    ∀ (m : List (String × Nat)) (k : String),
      lookupCount (T.foldl (fun m t => bumpCount m t.category) m) k =
        lookupCount m k + (T.filter (fun t => t.category == k)).length := by
  induction T with
  | nil => simp
  | cons t T ih =>
      intro m k
      simp only [List.foldl_cons]
      rw [ih, lookupCount_bumpCount]
      by_cases h : k = t.category
      · have hbeq : (t.category == k) = true := by simp [h]
        simp only [if_pos h, List.filter_cons, hbeq, if_true, List.length_cons]
        omega
      · have hbeq : (t.category == k) = false :=
          beq_eq_false_iff_ne.mpr (fun hc => h hc.symm)
        simp [List.filter_cons, hbeq, h]

/-- Keys of a bumped map: the bumped category joins the key set, nothing
else changes. -/
theorem mem_keys_bumpCount (m : List (String × Nat)) (c k : String) :
    k ∈ (bumpCount m c).map Prod.fst ↔ k = c ∨ k ∈ m.map Prod.fst := by
  induction m with
  | nil => simp [bumpCount]
  | cons hd tl ih =>
      obtain ⟨k', n⟩ := hd
      by_cases hc : k' = c
      · have hbump : bumpCount ((k', n) :: tl) c = (k', n + 1) :: tl := by
          unfold bumpCount; rw [if_pos hc]
        rw [hbump]
        simp only [List.map_cons, List.mem_cons, hc]
        tauto
      · have hbump : bumpCount ((k', n) :: tl) c = (k', n) :: bumpCount tl c := by
          simp only [bumpCount, if_neg hc]
        rw [hbump]
        simp only [List.map_cons, List.mem_cons, ih]
        tauto

/-- Keys of the accumulated `categoryCount` are exactly the categories of
the input plus the initial keys. -/
theorem mem_keys_counts (T : List Transaction) :
    ∀ (m : List (String × Nat)) (k : String),
      k ∈ ((T.foldl (fun m t => bumpCount m t.category) m).map Prod.fst) ↔
        k ∈ m.map Prod.fst ∨ k ∈ T.map (fun t => t.category) := by
  induction T with
  | nil => simp
  | cons t T ih =>
      intro m k
      simp only [List.foldl_cons, List.map_cons, List.mem_cons]
      rw [ih, mem_keys_bumpCount]
      tauto

/-- Bumping never empties the map. -/
theorem bumpCount_ne_nil (m : List (String × Nat)) (c : String) :
    bumpCount m c ≠ [] := by
  cases m with
  | nil => simp [bumpCount]
  | cons hd tl =>
      obtain ⟨k', n⟩ := hd
      unfold bumpCount
      split <;> simp

/-- Counting over more transactions never empties a non-empty map. -/
theorem counts_ne_nil (T : List Transaction) :
    ∀ m : List (String × Nat), m ≠ [] →
      T.foldl (fun m t => bumpCount m t.category) m ≠ [] := by
  induction T with
  | nil => exact fun m h => h
  | cons t T ih =>
      intro m _
      simp only [List.foldl_cons]
      exact ih _ (bumpCount_ne_nil m t.category)

/-- A key that is not in the map counts as zero. -/
theorem lookupCount_eq_zero_of_not_mem (m : List (String × Nat)) (k : String)
    (h : k ∉ m.map Prod.fst) : lookupCount m k = 0 := by
  induction m with
  | nil => rfl
  | cons hd tl ih =>
      obtain ⟨k', n⟩ := hd
      simp only [List.map_cons, List.mem_cons] at h
      push_neg at h
      have : ¬k' = k := fun hc => h.1 hc.symm
      simp [lookupCount, this, ih h.2]

/-- The key-list `reduce` with the strict `>` comparison returns an
element of the list whose score bounds every score seen. -/
theorem foldl_argmax (f : String → Nat) (ks : List String) :
    ∀ k : String,
      (ks.foldl (fun a b => if f a > f b then a else b) k) ∈ k :: ks ∧
      f k ≤ f (ks.foldl (fun a b => if f a > f b then a else b) k) ∧
      ∀ b ∈ ks, f b ≤ f (ks.foldl (fun a b => if f a > f b then a else b) k) := by
  induction ks with
  | nil => exact fun k => ⟨List.mem_singleton_self k, le_refl _, by simp⟩
  | cons b ks ih =>
      intro k
      simp only [List.foldl_cons]
      by_cases h : f k > f b
      · rw [if_pos h]
        obtain ⟨hmem, hinit, hall⟩ := ih k
        refine ⟨?_, hinit, ?_⟩
        · rcases List.mem_cons.mp hmem with hx | hx
          · rw [hx]; exact List.mem_cons_self _ _
          · exact List.mem_cons_of_mem _ (List.mem_cons_of_mem _ hx)
        · intro x hx
          rcases List.mem_cons.mp hx with hx | hx
          · subst hx; omega
          · exact hall x hx
      · rw [if_neg h]
        obtain ⟨hmem, hinit, hall⟩ := ih b
        refine ⟨?_, ?_, ?_⟩
        · rcases List.mem_cons.mp hmem with hx | hx
          · rw [hx]; exact List.mem_cons_of_mem _ (List.mem_cons_self _ _)
          · exact List.mem_cons_of_mem _ (List.mem_cons_of_mem _ hx)
        · omega
        · intro x hx
          rcases List.mem_cons.mp hx with hx | hx
          · subst hx; exact hinit
          · exact hall x hx

/-- C5: `mostUsedCategory` of the empty input is the sentinel `'Nenhuma'`;
on non-empty input it is a category occurring in the input whose occurrence
count over all transactions (both kinds) is at least that of every other
category value. -/
theorem mostFrequentCategory_spec (T : List Transaction) :
    (T = [] → (calculateHighlights T).mostUsedCategory = "Nenhuma") ∧
    (T ≠ [] →
      (calculateHighlights T).mostUsedCategory ∈
          T.map (fun t => t.category) ∧
        ∀ c : String,
          (T.filter (fun t => t.category == c)).length ≤
            (T.filter (fun t =>
              t.category ==
                (calculateHighlights T).mostUsedCategory)).length) := by
  constructor
  · rintro rfl
    rfl
  · intro hT
    rcases T with _ | ⟨t0, T'⟩
    · exact absurd rfl hT
    set cc := (t0 :: T').foldl (fun m t => bumpCount m t.category) [] with hcc
    have hccnil : cc ≠ [] := by
      rw [hcc]
      simp only [List.foldl_cons]
      exact counts_ne_nil T' _ (bumpCount_ne_nil [] t0.category)
    have hkeys : cc.map Prod.fst ≠ [] := by
      intro h
      exact hccnil (List.map_eq_nil_iff.mp h)
    obtain ⟨k, ks, hks⟩ : ∃ k ks, cc.map Prod.fst = k :: ks := by
      rcases h : cc.map Prod.fst with _ | ⟨k, ks⟩
      · exact absurd h hkeys
      · exact ⟨k, ks, rfl⟩
    have hmatch : (calculateHighlights (t0 :: T')).mostUsedCategory =
        match cc.map Prod.fst with
        | [] => "Nenhuma"
        | k :: ks =>
            ks.foldl (fun a b =>
              if lookupCount cc a > lookupCount cc b then a else b) k := rfl
    have hred : (calculateHighlights (t0 :: T')).mostUsedCategory =
        ks.foldl (fun a b =>
          if lookupCount cc a > lookupCount cc b then a else b) k := by
      rw [hmatch, hks]
    obtain ⟨hmem, hinit, hall⟩ := foldl_argmax (lookupCount cc) ks k
    have hcount : ∀ c : String,
        ((t0 :: T').filter (fun t => t.category == c)).length =
          lookupCount cc c := by
      intro c
      rw [hcc, lookupCount_counts (t0 :: T') [] c]
      simp [lookupCount]
    constructor
    · rw [hred]
      rw [← hks] at hmem
      rw [hcc] at hmem
      rcases (mem_keys_counts (t0 :: T') [] _).mp hmem with h | h
      · simp at h
      · exact h
    · intro c
      rw [hred, hcount c, hcount _]
      by_cases hc : c ∈ cc.map Prod.fst
      · rw [hks] at hc
        rcases List.mem_cons.mp hc with hc | hc
        · subst hc
          exact hinit
        · exact hall c hc
      · rw [lookupCount_eq_zero_of_not_mem cc c hc]
        exact Nat.zero_le _

/-- Witness for C5: on the empty list the sentinel is returned, and on the
§8 scenario data the result is a category of the input whose count bounds
the count of `'Food'`. -/
theorem mostFrequentCategory_witness :
    (calculateHighlights ([] : List Transaction)).mostUsedCategory =
        "Nenhuma" ∧
      (calculateHighlights sampleT).mostUsedCategory ∈
        sampleT.map (fun t => t.category) ∧
      (sampleT.filter (fun t => t.category == "Food")).length ≤
        (sampleT.filter (fun t =>
          t.category == (calculateHighlights sampleT).mostUsedCategory)).length :=
  ⟨(mostFrequentCategory_spec []).1 rfl,
   ((mostFrequentCategory_spec sampleT).2 (by decide)).1,
   ((mostFrequentCategory_spec sampleT).2 (by decide)).2 "Food"⟩

/-! ### C2 -/

/-- A transaction on the last day of January whose `Date` carries a
time-of-day one hour past midnight. -/
def lateTx : Transaction :=
  { id := "4", type := "expense", amount := 10, description := "Jantar",
    category := "Food", date := ⟨2024, 1, 31, 3600000⟩ }

/-- The screen's default-style spec: no kind/category/search constraint,
range from January 1 to the `Date` value for January 31 at midnight. -/
def monthSpec : FilterSpec :=
  { filterType := "all", filterCategory := "", startDate := ⟨2024, 1, 1, 0⟩,
    endDate := ⟨2024, 1, 31, 0⟩, searchText := "" }

/-- C2 counterexample: `lateTx` is dated exactly on `dateTo`'s calendar
day, yet the filter excludes it, because the comparison uses the full
`Date` values and `lateTx`'s time-of-day exceeds the bound's. -/
theorem dateFilter_not_calendar_only :
    sameCalendarDay lateTx.date monthSpec.endDate = true ∧
      filterTransactions [lateTx] monthSpec = [] := by decide

/-- C2 amended: the date filter compares the full date-time values
inclusively, without discarding time-of-day.  A transaction on `dateTo`'s
calendar day that passes the other predicates and the lower bound is kept
exactly when its time-of-day does not exceed `dateTo`'s time-of-day. -/
theorem dateFilter_full_timestamp (T : List Transaction) (spec : FilterSpec)
    (t : Transaction) (hmem : t ∈ T)
    (hday : sameCalendarDay t.date spec.endDate = true)
    (hkind : passesKind spec t = true)
    (hcat : passesCategory spec t = true)
    (hsearch : passesSearch spec t = true)
    (hfrom : DateTime.le spec.startDate t.date = true) :
    t ∈ filterTransactions T spec ↔
      t.date.msOfDay ≤ spec.endDate.msOfDay := by
  rw [filterTransactions_eq_filter, List.mem_filter]
  unfold passesAll
  rw [hkind, hcat, hsearch]
  unfold passesDate
  rw [hfrom]
  simp only [Bool.true_and, Bool.and_true]
  unfold sameCalendarDay at hday
  simp only [Bool.and_eq_true, beq_iff_eq] at hday
  obtain ⟨⟨hy, hm⟩, hd⟩ := hday
  unfold DateTime.le
  rw [if_neg (by simp [hy]), if_neg (by simp [hm]), if_neg (by simp [hd])]
  simp [hmem]

/-- A transaction on `dateTo`'s calendar day at midnight, which the filter
keeps. -/
def earlyTx : Transaction :=
  { id := "5", type := "expense", amount := 10, description := "Lanche",
    category := "Food", date := ⟨2024, 1, 31, 0⟩ }

/-- Witness for the amended C2: `earlyTx`'s time-of-day does not exceed
the bound's, so it is included. -/
theorem dateFilter_full_timestamp_witness :
    earlyTx ∈ filterTransactions [earlyTx] monthSpec :=
  (dateFilter_full_timestamp [earlyTx] monthSpec earlyTx (by decide)
    (by decide) (by decide) (by decide) (by decide) (by decide)).mpr (by decide)

/-! ### C3 and C10: the monthly series -/

/-- Adding a transaction's amount into the months map adds it to the
income total exactly when the type test succeeded. -/
theorem addToMonths_income_sum (m : List (String × MonthData)) (key : String)
    (inc : Bool) (a : Int) :
    ((addToMonths m key inc a).map (fun p => p.2.income)).sum =
      (m.map (fun p => p.2.income)).sum + (if inc then a else 0) := by
  induction m with
  | nil => cases inc <;> simp [addToMonths]
  | cons hd tl ih =>
      obtain ⟨k, d⟩ := hd
      by_cases h : k = key
      · cases inc <;> simp [addToMonths, h] <;> ring
      · simp [addToMonths, h, ih]
        ring

/-- Companion of `addToMonths_income_sum` for the expenses total. -/
theorem addToMonths_expenses_sum (m : List (String × MonthData)) (key : String)
    (inc : Bool) (a : Int) :
    ((addToMonths m key inc a).map (fun p => p.2.expenses)).sum =
      (m.map (fun p => p.2.expenses)).sum + (if inc then 0 else a) := by
  induction m with
  | nil => cases inc <;> simp [addToMonths]
  | cons hd tl ih =>
      obtain ⟨k, d⟩ := hd
      by_cases h : k = key
      · cases inc <;> simp [addToMonths, h] <;> ring
      · simp [addToMonths, h, ih]
        ring

/-- The income totals of the accumulated months map sum to the initial
total plus the amounts of the `'income'` transactions. -/
theorem months_income_sum (T : List Transaction) :
    ∀ m : List (String × MonthData),
      ((T.foldl (fun m t =>
          addToMonths m (monthKey t) (t.type == "income") t.amount) m).map
        (fun p => p.2.income)).sum =
      (m.map (fun p => p.2.income)).sum +
        ((T.filter (fun t => t.type == "income")).map (fun t => t.amount)).sum := by
  induction T with
  | nil => simp
  | cons t T ih =>
      intro m
      simp only [List.foldl_cons]
      rw [ih, addToMonths_income_sum]
      cases h : (t.type == "income") <;> simp [List.filter_cons, h] <;> ring

/-- The expenses totals sum to the initial total plus the amounts of every
transaction whose type is not `'income'` (the `else` branch of the loop). -/
theorem months_expenses_sum (T : List Transaction) :
    ∀ m : List (String × MonthData),
      ((T.foldl (fun m t =>
          addToMonths m (monthKey t) (t.type == "income") t.amount) m).map
        (fun p => p.2.expenses)).sum =
      (m.map (fun p => p.2.expenses)).sum +
        ((T.filter (fun t => !(t.type == "income"))).map (fun t => t.amount)).sum := by
  induction T with
  | nil => simp
  | cons t T ih =>
      intro m
      simp only [List.foldl_cons]
      rw [ih, addToMonths_expenses_sum]
      cases h : (t.type == "income") <;> simp [List.filter_cons, h] <;> ring

/-- Lookup `months[k]`, with the zero record for an absent key. -/
def findMonth (m : List (String × MonthData)) (k : String) : MonthData :=
  match m with
  | [] => ⟨0, 0⟩
  | (k', d) :: rest => if k' = k then d else findMonth rest k

/-- How one `addToMonths` step changes each key's record. -/
theorem findMonth_addToMonths (m : List (String × MonthData)) (key k : String)
    (inc : Bool) (a : Int) :
    findMonth (addToMonths m key inc a) k =
      if k = key then
        (if inc then
          ⟨(findMonth m k).income + a, (findMonth m k).expenses⟩
         else
          ⟨(findMonth m k).income, (findMonth m k).expenses + a⟩)
      else findMonth m k := by
  induction m with
  | nil =>
      by_cases h : k = key
      · subst h
        cases inc <;> simp [addToMonths, findMonth]
      · have h' : ¬key = k := fun hc => h hc.symm
        cases inc <;> simp [addToMonths, findMonth, h, h']
  | cons hd tl ih =>
      obtain ⟨k', d⟩ := hd
      by_cases hk : k' = key
      · by_cases h : k = key
        · have h1 : k' = k := hk.trans h.symm
          cases inc <;> simp [addToMonths, findMonth, hk, h1, h]
        · have h1 : ¬k' = k := fun hc => h (hc.symm.trans hk)
          have h1' : ¬key = k := fun hc => h hc.symm
          cases inc <;> simp [addToMonths, findMonth, hk, h1, h1', h]
      · by_cases h1 : k' = k
        · have h2 : ¬k = key := fun hc => hk (h1.trans hc)
          simp [addToMonths, findMonth, hk, h1, h2]
        · simp [addToMonths, findMonth, hk, h1, ih]

/-- Each key's record in the accumulated months map holds the sums of the
matching transactions' amounts, split by the income test. -/
theorem findMonth_months (T : List Transaction) :
    ∀ (m : List (String × MonthData)) (k : String),
      (findMonth (T.foldl (fun m t =>
          addToMonths m (monthKey t) (t.type == "income") t.amount) m) k).income =
        (findMonth m k).income +
          ((T.filter (fun t =>
            t.type == "income" && monthKey t == k)).map (fun t => t.amount)).sum ∧
      (findMonth (T.foldl (fun m t =>
          addToMonths m (monthKey t) (t.type == "income") t.amount) m) k).expenses =
        (findMonth m k).expenses +
          ((T.filter (fun t =>
            !(t.type == "income") && monthKey t == k)).map (fun t => t.amount)).sum := by
  induction T with
  | nil => simp
  | cons t T ih =>
      intro m k
      simp only [List.foldl_cons]
      obtain ⟨ih1, ih2⟩ :=
        ih (addToMonths m (monthKey t) (t.type == "income") t.amount) k
      rw [ih1, ih2, findMonth_addToMonths]
      by_cases hk : k = monthKey t
      · have hk' : (monthKey t == k) = true := by simp [hk]
        cases h : (t.type == "income") <;>
          simp [List.filter_cons, hk, hk', h] <;> ring
      · have hk' : (monthKey t == k) = false :=
          beq_eq_false_iff_ne.mpr (fun hc => hk hc.symm)
        cases h : (t.type == "income") <;>
          simp [List.filter_cons, hk, hk', h]

/-- Keys of the months map after one step: the key joins the key list at
the end if new, otherwise nothing changes. -/
theorem keys_addToMonths (m : List (String × MonthData)) (key : String)
    (inc : Bool) (a : Int) :
    (addToMonths m key inc a).map Prod.fst =
      if key ∈ m.map Prod.fst then m.map Prod.fst
      else m.map Prod.fst ++ [key] := by
  induction m with
  | nil => simp [addToMonths]
  | cons hd tl ih =>
      obtain ⟨k', d⟩ := hd
      by_cases h : k' = key
      · subst h
        simp [addToMonths]
      · have h' : ¬key = k' := fun hc => h hc.symm
        by_cases hmem : key ∈ tl.map Prod.fst <;>
          simp [addToMonths, h, h', ih, hmem]

/-- One step preserves key distinctness. -/
theorem nodup_keys_addToMonths (m : List (String × MonthData)) (key : String)
    (inc : Bool) (a : Int) (h : (m.map Prod.fst).Nodup) :
    ((addToMonths m key inc a).map Prod.fst).Nodup := by
  rw [keys_addToMonths]
  by_cases hmem : key ∈ m.map Prod.fst
  · rw [if_pos hmem]; exact h
  · rw [if_neg hmem]
    rw [List.nodup_append]
    exact ⟨h, List.nodup_singleton key, by
      intro x hx hx'
      rw [List.mem_singleton.mp hx'] at hx
      exact hmem hx⟩

/-- Key membership of the accumulated months map: exactly the month keys
of the input (plus the initial keys). -/
theorem mem_keys_months (T : List Transaction) :
    ∀ (m : List (String × MonthData)) (k : String),
      k ∈ ((T.foldl (fun m t =>
          addToMonths m (monthKey t) (t.type == "income") t.amount) m).map
        Prod.fst) ↔
      k ∈ m.map Prod.fst ∨ k ∈ T.map monthKey := by
  induction T with
  | nil => simp
  | cons t T ih =>
      intro m k
      simp only [List.foldl_cons, List.map_cons, List.mem_cons]
      rw [ih, keys_addToMonths]
      by_cases hmem : monthKey t ∈ m.map Prod.fst
      · rw [if_pos hmem]
        constructor
        · tauto
        · rintro (h | h | h)
          · tauto
          · rw [h]; tauto
          · tauto
      · rw [if_neg hmem]
        simp only [List.mem_append, List.mem_singleton]
        tauto

/-- Key distinctness of the accumulated months map. -/
theorem nodup_keys_months (T : List Transaction) :
    ∀ m : List (String × MonthData), (m.map Prod.fst).Nodup →
      ((T.foldl (fun m t =>
          addToMonths m (monthKey t) (t.type == "income") t.amount) m).map
        Prod.fst).Nodup := by
  induction T with
  | nil => exact fun m h => h
  | cons t T ih =>
      intro m h
      simp only [List.foldl_cons]
      exact ih _ (nodup_keys_addToMonths m (monthKey t) (t.type == "income")
        t.amount h)

/-- With distinct keys, `findMonth` returns the stored record. -/
theorem findMonth_eq_of_mem (m : List (String × MonthData)) (k : String)
    (d : MonthData) (hnd : (m.map Prod.fst).Nodup) (hmem : (k, d) ∈ m) :
    findMonth m k = d := by
  induction m with
  | nil => cases hmem
  | cons hd tl ih =>
      obtain ⟨k', d'⟩ := hd
      simp only [List.map_cons, List.nodup_cons] at hnd
      rcases List.mem_cons.mp hmem with h | h
      · obtain ⟨hk, hd⟩ := Prod.mk.injEq _ _ _ _ ▸ h
        rw [findMonth, if_pos hk.symm, hd]
      · have hk : ¬k' = k := by
          intro hc
          apply hnd.1
          rw [hc]
          exact List.mem_map_of_mem Prod.fst h
        rw [findMonth, if_neg hk]
        exact ih hnd.2 h

/-- Most-significant-first decimal digit characters of a natural number,
the list `Nat.repr` turns into a string. -/
def digitsAux (n : Nat) : List Char :=
  if n < 10 then [Nat.digitChar n]
  else digitsAux (n / 10) ++ [Nat.digitChar (n % 10)]
termination_by n
decreasing_by
  simp_wf
  omega

/-- Core's fuelled digit loop computes `digitsAux` when the fuel
suffices. -/
theorem toDigitsCore_eq_digitsAux (fuel : Nat) :
    ∀ (n : Nat) (ds : List Char), n < fuel →
      Nat.toDigitsCore 10 fuel n ds = digitsAux n ++ ds := by
  induction fuel with
  | zero => exact fun n ds h => absurd h (Nat.not_lt_zero n)
  | succ f ih =>
      intro n ds h
      simp only [Nat.toDigitsCore]
      by_cases h0 : n / 10 = 0
      · rw [if_pos h0]
        have hn : n < 10 := by omega
        rw [digitsAux, if_pos hn, Nat.mod_eq_of_lt hn]
        rfl
      · rw [if_neg h0]
        have hn : ¬n < 10 := by omega
        have hlt : n / 10 < f := by omega
        rw [ih (n / 10) (Nat.digitChar (n % 10) :: ds) hlt]
        conv_rhs => rw [digitsAux]
        rw [if_neg hn]
        simp

/-- The character list of `Nat.repr` is `digitsAux`. -/
theorem repr_data_eq_digitsAux (n : Nat) :
    (Nat.repr n).data = digitsAux n := by
  show (List.asString (Nat.toDigitsCore 10 (n + 1) n [])).data = digitsAux n
  rw [toDigitsCore_eq_digitsAux (n + 1) n [] (Nat.lt_succ_self n)]
  simp [List.asString]

/-- Every character `digitsAux` produces is a decimal digit. -/
theorem digitsAux_isDigit (n : Nat) :
    ∀ c ∈ digitsAux n, c.isDigit = true := by
  have base : ∀ d : Nat, d < 10 → (Nat.digitChar d).isDigit = true := by decide
  induction n using Nat.strong_induction_on with
  | _ n ih =>
      by_cases h : n < 10
      · rw [digitsAux, if_pos h]
        intro c hc
        rw [List.mem_singleton.mp hc]
        exact base n h
      · rw [digitsAux, if_neg h]
        intro c hc
        rcases List.mem_append.mp hc with hc | hc
        · exact ih (n / 10) (Nat.div_lt_self (by omega) (by omega)) c hc
        · rw [List.mem_singleton.mp hc]
          exact base (n % 10) (Nat.mod_lt n (by omega))

/-- Reading the digits back as a decimal number recovers the input. -/
theorem decode_digitsAux (n : Nat) :
    (digitsAux n).foldl (fun a c => a * 10 + (c.toNat - 48)) 0 = n := by
  have base : ∀ d : Nat, d < 10 → (Nat.digitChar d).toNat - 48 = d := by decide
  have step : ∀ (l : List Char) (v : Nat),
      ∀ hv : l.foldl (fun a c => a * 10 + (c.toNat - 48)) 0 = v, True := fun _ _ _ => trivial
  clear step
  induction n using Nat.strong_induction_on with
  | _ n ih =>
      by_cases h : n < 10
      · rw [digitsAux, if_pos h]
        simp [base n h]
      · rw [digitsAux, if_neg h, List.foldl_append,
          ih (n / 10) (Nat.div_lt_self (by omega) (by omega))]
        simp only [List.foldl_cons, List.foldl_nil]
        rw [base (n % 10) (Nat.mod_lt n (by omega))]
        omega

/-- Function `digitsAux` is injective. -/
theorem digitsAux_inj {a b : Nat} (h : digitsAux a = digitsAux b) : a = b := by
  have ha := decode_digitsAux a
  rw [h, decode_digitsAux b] at ha
  exact ha.symm

/-- Splitting two equal lists at a separator absent from both prefixes
identifies the prefixes and the suffixes. -/
theorem append_sep_eq (sep : Char) :
    ∀ (a1 a2 b1 b2 : List Char), sep ∉ a1 → sep ∉ a2 →
      a1 ++ sep :: b1 = a2 ++ sep :: b2 → a1 = a2 ∧ b1 = b2 := by
  intro a1
  induction a1 with
  | nil =>
      intro a2 b1 b2 h1 h2 h
      cases a2 with
      | nil => simpa using h
      | cons x a2 =>
          simp only [List.nil_append, List.cons_append, List.cons.injEq] at h
          exfalso
          apply h2
          rw [h.1]
          exact List.mem_cons_self x a2
  | cons y a1 ih =>
      intro a2 b1 b2 h1 h2 h
      cases a2 with
      | nil =>
          simp only [List.nil_append, List.cons_append, List.cons.injEq] at h
          exfalso
          apply h1
          rw [← h.1]
          exact List.mem_cons_self y a1
      | cons x a2 =>
          simp only [List.cons_append, List.cons.injEq] at h
          obtain ⟨hxy, hrest⟩ := h
          have h1' : sep ∉ a1 := fun hc => h1 (List.mem_cons_of_mem _ hc)
          have h2' : sep ∉ a2 := fun hc => h2 (List.mem_cons_of_mem _ hc)
          obtain ⟨ha, hb⟩ := ih a2 b1 b2 h1' h2' hrest
          exact ⟨by rw [hxy, ha], hb⟩

/-- The month key `` `${year}-${month}` `` determines, and is determined
by, the calendar year and month: grouping by the key string is grouping by
(calendar year, calendar month). -/
theorem monthKey_eq_iff (t s : Transaction) :
    monthKey t = monthKey s ↔
      (t.date.year = s.date.year ∧ t.date.month = s.date.month) := by
  have hnot : ∀ m : Nat, ('-' : Char) ∉ digitsAux m := by
    intro m hc
    have := digitsAux_isDigit m '-' hc
    exact absurd this (by decide)
  constructor
  · intro h
    unfold monthKey at h
    have hd : (toString t.date.year ++ "-" ++ toString t.date.month).data =
        (toString s.date.year ++ "-" ++ toString s.date.month).data := by
      rw [h]
    simp only [String.data_append] at hd
    have hts : ∀ m : Nat, (toString m).data = digitsAux m := fun m =>
      repr_data_eq_digitsAux m
    rw [hts, hts, hts, hts, List.append_assoc, List.append_assoc,
      List.singleton_append, List.singleton_append] at hd
    obtain ⟨hy, hm⟩ :=
      append_sep_eq '-' _ _ _ _ (hnot t.date.year) (hnot s.date.year) hd
    exact ⟨digitsAux_inj hy, digitsAux_inj hm⟩
  · rintro ⟨hy, hm⟩
    unfold monthKey
    rw [hy, hm]

/-- Summing `income + expenses` bucket-wise splits into the two totals. -/
theorem sum_map_add_buckets (l : List MonthBucket) :
    (l.map (fun b => b.income + b.expenses)).sum =
      (l.map (fun b => b.income)).sum + (l.map (fun b => b.expenses)).sum := by
  induction l with
  | nil => simp
  | cons b l ih =>
      simp only [List.map_cons, List.sum_cons, ih]
      ring

/-- Splitting a sum of amounts along a Boolean predicate loses nothing. -/
theorem sum_filter_partition (T : List Transaction) (p : Transaction → Bool) :
    ((T.filter p).map (fun t => t.amount)).sum +
      ((T.filter (fun t => !(p t))).map (fun t => t.amount)).sum =
      (T.map (fun t => t.amount)).sum := by
  induction T with
  | nil => simp
  | cons t T ih =>
      cases h : p t <;> simp [List.filter_cons, h] <;> omega

/-- Projecting `income` out of the bucket array recovers the map values. -/
theorem map_bucket_income (m : List (String × MonthData)) :
    ((m.map (fun p =>
        ({ month := p.1, income := p.2.income, expenses := p.2.expenses } :
          MonthBucket))).map (fun b => b.income)) =
      m.map (fun p => p.2.income) := by
  rw [List.map_map]
  rfl

/-- Projecting `expenses` out of the bucket array recovers the map
values. -/
theorem map_bucket_expenses (m : List (String × MonthData)) :
    ((m.map (fun p =>
        ({ month := p.1, income := p.2.income, expenses := p.2.expenses } :
          MonthBucket))).map (fun b => b.expenses)) =
      m.map (fun p => p.2.expenses) := by
  rw [List.map_map]
  rfl

/-- Projecting `month` out of the bucket array recovers the keys. -/
theorem map_bucket_month (m : List (String × MonthData)) :
    ((m.map (fun p =>
        ({ month := p.1, income := p.2.income, expenses := p.2.expenses } :
          MonthBucket))).map (fun b => b.month)) =
      m.map Prod.fst := by
  rw [List.map_map]
  rfl

/-- C3: the monthly series is a lossless partition of the totals — the
bucket incomes sum to the total Income amount and the bucket expenses to
the total Expense amount (over sequences whose kinds are the data model's
`{Income, Expense}`); each bucket holds exactly the sums of its month's
transactions; there is one bucket per distinct month key of the input, and
equality of month keys is equality of (calendar year, calendar month). -/
theorem monthlySeries_lossless (T : List Transaction)
    (hwf : ∀ t ∈ T, t.type = "income" ∨ t.type = "expense") :
    ((processMonthlyData T).map (fun b => b.income)).sum =
      ((T.filter (fun t => t.type == "income")).map (fun t => t.amount)).sum ∧
    ((processMonthlyData T).map (fun b => b.expenses)).sum =
      ((T.filter (fun t => t.type == "expense")).map (fun t => t.amount)).sum ∧
    (∀ b ∈ processMonthlyData T,
      b.income = ((T.filter (fun t =>
        t.type == "income" && monthKey t == b.month)).map
          (fun t => t.amount)).sum ∧
      b.expenses = ((T.filter (fun t =>
        t.type == "expense" && monthKey t == b.month)).map
          (fun t => t.amount)).sum) ∧
    ((processMonthlyData T).map (fun b => b.month)).Nodup ∧
    (∀ k : String,
      k ∈ (processMonthlyData T).map (fun b => b.month) ↔
        k ∈ T.map monthKey) ∧
    (∀ t s : Transaction, monthKey t = monthKey s ↔
      (t.date.year = s.date.year ∧ t.date.month = s.date.month)) := by
  have hexpfilter : T.filter (fun t => !(t.type == "income")) =
      T.filter (fun t => t.type == "expense") :=
    List.filter_congr fun t ht => by
      rcases hwf t ht with h | h <;> rw [h] <;> decide
  have hpm : processMonthlyData T =
      (T.foldl (fun m t =>
        addToMonths m (monthKey t) (t.type == "income") t.amount) []).map
        (fun p => ({ month := p.1, income := p.2.income,
                     expenses := p.2.expenses } : MonthBucket)) := rfl
  refine ⟨?_, ?_, ?_, ?_, ?_, fun t s => monthKey_eq_iff t s⟩
  · rw [hpm, map_bucket_income, months_income_sum T []]
    simp
  · rw [hpm, map_bucket_expenses, months_expenses_sum T [], hexpfilter]
    simp
  · intro b hb
    rw [hpm] at hb
    obtain ⟨p, hp, hbp⟩ := List.mem_map.mp hb
    have hnd := nodup_keys_months T [] (by simp)
    have hfm : findMonth (T.foldl (fun m t =>
        addToMonths m (monthKey t) (t.type == "income") t.amount) []) p.1 =
        p.2 :=
      findMonth_eq_of_mem _ _ _ hnd hp
    obtain ⟨hfi, hfe⟩ := findMonth_months T [] p.1
    rw [hfm] at hfi hfe
    have hconv : T.filter (fun t =>
        !(t.type == "income") && monthKey t == p.1) =
        T.filter (fun t => t.type == "expense" && monthKey t == p.1) :=
      List.filter_congr fun t ht => by
        rcases hwf t ht with h | h <;> rw [h] <;>
          cases hmk : (monthKey t == p.1) <;> rfl
    subst hbp
    constructor
    · show p.2.income = _
      rw [hfi]
      simp [findMonth]
    · show p.2.expenses = _
      rw [hfe, hconv]
      simp [findMonth]
  · rw [hpm, map_bucket_month]
    exact nodup_keys_months T [] (by simp)
  · intro k
    rw [hpm, map_bucket_month]
    have := mem_keys_months T [] k
    simpa using this

/-- Witness for C3: on the §8 scenario data the bucket income total equals
the Income total. -/
theorem monthlySeries_lossless_witness :
    ((processMonthlyData sampleT).map (fun b => b.income)).sum =
      ((sampleT.filter (fun t => t.type == "income")).map
        (fun t => t.amount)).sum :=
  (monthlySeries_lossless sampleT (by decide)).1

/-- C10: every transaction lands in exactly one field of its month's
bucket (the bucket totals sum to the grand total of all amounts), and the
branch is binary — `expenses` collects every transaction whose type is not
`'income'`; in particular a transaction of a third kind is counted in the
monthly expenses even though `computeBalance` ignores it. -/
theorem monthlySeries_binary_branch :
    (∀ T : List Transaction,
      ((processMonthlyData T).map (fun b => b.income + b.expenses)).sum =
        (T.map (fun t => t.amount)).sum ∧
      ((processMonthlyData T).map (fun b => b.expenses)).sum =
        ((T.filter (fun t => !(t.type == "income"))).map
          (fun t => t.amount)).sum) ∧
    (∀ t : Transaction, t.type ≠ "income" → t.type ≠ "expense" →
      processMonthlyData [t] =
        [{ month := monthKey t, income := 0, expenses := t.amount }] ∧
      computeBalance [t] = 0) := by
  constructor
  · intro T
    have hpm : processMonthlyData T =
        (T.foldl (fun m t =>
          addToMonths m (monthKey t) (t.type == "income") t.amount) []).map
          (fun p => ({ month := p.1, income := p.2.income,
                       expenses := p.2.expenses } : MonthBucket)) := rfl
    have hinc : ((processMonthlyData T).map (fun b => b.income)).sum =
        ((T.filter (fun t => t.type == "income")).map
          (fun t => t.amount)).sum := by
      rw [hpm, map_bucket_income, months_income_sum T []]
      simp
    have hexp : ((processMonthlyData T).map (fun b => b.expenses)).sum =
        ((T.filter (fun t => !(t.type == "income"))).map
          (fun t => t.amount)).sum := by
      rw [hpm, map_bucket_expenses, months_expenses_sum T []]
      simp
    refine ⟨?_, hexp⟩
    rw [sum_map_add_buckets, hinc, hexp]
    exact sum_filter_partition T (fun t => t.type == "income")
  · intro t h1 h2
    have hb1 : (t.type == "income") = false := beq_eq_false_iff_ne.mpr h1
    have hb2 : (t.type == "expense") = false := beq_eq_false_iff_ne.mpr h2
    constructor
    · simp [processMonthlyData, addToMonths, hb1]
    · simp [computeBalance, List.filter_cons, hb1, hb2]

/-- A transaction of a third kind, neither `'income'` nor `'expense'`. -/
def transferTx : Transaction :=
  { id := "6", type := "transfer", amount := 25, description := "Pix",
    category := "Misc", date := ⟨2024, 2, 1, 0⟩ }

/-- Witness for C10: the `'transfer'` transaction is counted in the
monthly `expenses` field while `computeBalance` ignores it. -/
theorem monthlySeries_binary_branch_witness :
    processMonthlyData [transferTx] =
      [{ month := monthKey transferTx, income := 0,
         expenses := transferTx.amount }] ∧
      computeBalance [transferTx] = 0 :=
  monthlySeries_binary_branch.2 transferTx (by decide) (by decide)
